import Mathlib

/-!
Verification of the calendar-grid and playback-queue logic of the
personal-notes-organizer front end.

Two subsystems are modelled, following the source:

* `CalendarView.js` — a civil (Gregorian) date type `CalDate` with the
  component's helpers `startOfDay`, `addDays`, `addMonths`, `addWeeks`,
  `getMonthGrid`, the weekday accessor `getDay`, and the navigation
  handlers `goPrev` / `goNext` acting on the component state.
* The music player component — `PlaybackState` / `Track` / `PlayerModel`
  with the handlers `handleUpload` (per accepted file: `uploadStateUpdate`),
  `playTrack`, `removeTrack`, `playNext`, `playPrev`, plus the `.mp3`
  upload filter, and the four fail-soft persisted-state loaders.

The host `Date` is a timestamp; the component only ever stores midnight
dates and manipulates them through `getFullYear`/`getMonth`/`getDate`/
`getDay`/`setDate`/`setMonth`.  We therefore model a date as a civil
triple (year, 0-based month, 1-based day); `startOfDay` is the identity
because time-of-day is not represented.  `setDate(getDate() + n)` is
modelled as `n`-fold calendar successor/predecessor, and
`setMonth(getMonth() + n)` by the ECMAScript `MakeDay` normalisation
(month index folded into the year, then day-of-month overflow carried
into the following month; one carry suffices for any valid date since
the overflow is at most `31 - 28 = 3` days).  `getDay` is ECMAScript
`WeekDay(t) = (Day(t) + 4) mod 7`, with `Day` computed by the standard
shifted-year civil-to-epoch-day formula (epoch day 0 = 1970-01-01).

JavaScript value subtleties kept by the model: `localStorage.getItem`
returning `null` and the empty string are both falsy; `queue[0] || null`
yields `null` for an empty *or* empty-string head; `!s.currentId` is
true for `null` and for the empty-string id; `Array.prototype.indexOf`
returns `-1` when the element is absent (in particular for `null` on a
string array).  Numbers that the claims touch (`position`, `volume`) are
modelled as rationals; the claims only ever compare them with exact
constants such as `0`.
-/

/-! ## Calendar: dates -/

/-- A civil (proleptic Gregorian) calendar date as the component uses it:
`year` as in `getFullYear`, `month` 0-based as in `getMonth`, `day`
1-based as in `getDate`. -/
structure CalDate where
  year : Int
  month : Nat
  day : Nat
deriving DecidableEq, Repr

instance : Inhabited CalDate := ⟨⟨1970, 0, 1⟩⟩

/-- Gregorian leap-year test (the rule implemented by the host date
library). -/
def isLeap (y : Int) : Bool := y % 4 = 0 ∧ (y % 100 ≠ 0 ∨ y % 400 = 0)

/-- Number of days of month `m` (0-based) of year `y`. -/
def daysInMonth (y : Int) (m : Nat) : Nat :=
  match m with
  | 0 => 31
  | 1 => if isLeap y then 29 else 28
  | 2 => 31
  | 3 => 30
  | 4 => 31
  | 5 => 30
  | 6 => 31
  | 7 => 31
  | 8 => 30
  | 9 => 31
  | 10 => 30
  | _ => 31

/-- The dates actually representable by the host `Date` object: month
index in range and day-of-month in range. -/
def CalDate.Valid (dt : CalDate) : Prop :=
  dt.month < 12 ∧ 1 ≤ dt.day ∧ dt.day ≤ daysInMonth dt.year dt.month

instance (dt : CalDate) : Decidable dt.Valid := by
  unfold CalDate.Valid; infer_instance

/-- Calendar successor (the next day). -/
def succD (dt : CalDate) : CalDate :=
  if dt.day < daysInMonth dt.year dt.month then ⟨dt.year, dt.month, dt.day + 1⟩
  else if dt.month < 11 then ⟨dt.year, dt.month + 1, 1⟩
  else ⟨dt.year + 1, 0, 1⟩

/-- Calendar predecessor (the previous day). -/
def predD (dt : CalDate) : CalDate :=
  if 1 < dt.day then ⟨dt.year, dt.month, dt.day - 1⟩
  else if 0 < dt.month then ⟨dt.year, dt.month - 1, daysInMonth dt.year (dt.month - 1)⟩
  else ⟨dt.year - 1, 11, 31⟩

/-- `addDays` of the source (`dt.setDate(dt.getDate() + n)`): shift a
date by `n` civil days, as an `n`-fold successor / predecessor. -/
def addDays (dt : CalDate) (n : Int) : CalDate :=
  if 0 ≤ n then succD^[n.toNat] dt else predD^[(-n).toNat] dt

/-- `addMonths` of the source (`dt.setMonth(dt.getMonth() + n)`):
ECMAScript folds the month index into the year and then renormalises the
(first-of-month + day-1) timestamp; for any valid starting date the
day-of-month overflow is at most 3 days, so a single carry into the
following month is the exact behaviour. -/
def addMonths (dt : CalDate) (n : Int) : CalDate :=
  let t : Int := (dt.month : Int) + n
  let y2 : Int := dt.year + t / 12
  let m2 : Nat := (t % 12).toNat
  if dt.day ≤ daysInMonth y2 m2 then ⟨y2, m2, dt.day⟩
  else if m2 < 11 then ⟨y2, m2 + 1, dt.day - daysInMonth y2 m2⟩
  else ⟨y2 + 1, 0, dt.day - daysInMonth y2 m2⟩

/-- `addWeeks` of the source: `addDays(d, n * 7)`. -/
def addWeeks (dt : CalDate) (n : Int) : CalDate := addDays dt (n * 7)

/-- `startOfDay` of the source normalises the time-of-day fields to
midnight; the model carries no time-of-day, so it is the identity. -/
def startOfDay (dt : CalDate) : CalDate := dt

/-- Epoch-day number of a civil date (ECMAScript `Day`/`MakeDay`:
1970-01-01 ↦ 0), via the standard shifted-year formula: the year is
shifted to start in March so that the leap day is its last day. -/
def daysFromCivil (dt : CalDate) : Int :=
  let ys : Int := dt.year - (if dt.month < 2 then 1 else 0)
  let mp : Nat := (dt.month + 10) % 12
  let doy : Int := ((153 * mp + 2) / 5 : Nat) + (dt.day : Int) - 1
  365 * ys + ys / 4 - ys / 100 + ys / 400 + doy - 719468

/-- `Date.prototype.getDay`: ECMAScript `WeekDay(t) = (Day(t) + 4) mod 7`
(0 = Sunday). -/
def getDay (dt : CalDate) : Nat := ((daysFromCivil dt + 4) % 7).toNat

/-! ## Calendar: grid and navigation -/

/-- The `gridStart` local of `getMonthGrid`: the first of the anchor's
month stepped back to the preceding Sunday. -/
def gridStartOf (anchor : CalDate) : CalDate :=
  let firstOfMonth : CalDate := ⟨anchor.year, anchor.month, 1⟩
  let startWeekday : Nat := getDay firstOfMonth
  addDays firstOfMonth (-(startWeekday : Int))

/-- `getMonthGrid` of the source: 42 consecutive days from `gridStart`. -/
def getMonthGrid (anchor : CalDate) : List CalDate :=
  (List.range 42).map fun i : Nat => addDays (gridStartOf anchor) (i : Int)

/-- The `CalendarView` component state relevant to navigation: the view
mode string (`"month" | "week" | "day"`), the anchor `current`, and the
`selected` date. -/
structure CalendarState where
  view : String
  current : CalDate
  selected : Option CalDate
deriving DecidableEq

/-- `goPrev` of the source. -/
def goPrev (s : CalendarState) : CalendarState :=
  { s with current :=
      if s.view == "month" then startOfDay (addMonths s.current (-1))
      else if s.view == "week" then startOfDay (addWeeks s.current (-1))
      else startOfDay (addDays s.current (-1)) }

/-- `goNext` of the source. -/
def goNext (s : CalendarState) : CalendarState :=
  { s with current :=
      if s.view == "month" then startOfDay (addMonths s.current 1)
      else if s.view == "week" then startOfDay (addWeeks s.current 1)
      else startOfDay (addDays s.current 1) }

/-- The calendar month adjacent to (following) the month of `dt`. -/
def nextMonthOf (dt : CalDate) : Int × Nat :=
  if dt.month = 11 then (dt.year + 1, 0) else (dt.year, dt.month + 1)

/-! ## Player: data model -/

/-- A library entry (`Track`) as created by `handleUpload`. -/
structure Track where
  id : String
  name : String
  fileName : String
  url : String
  duration : ℚ
  createdAt : Int
deriving DecidableEq

/-- The persisted playback bundle `{currentId, position, volume, queue}`. -/
structure PlaybackState where
  currentId : Option String
  position : ℚ
  volume : ℚ
  queue : List String
deriving DecidableEq

/-- The component's full mutable state: the library plus the playback
bundle. -/
structure PlayerModel where
  library : List Track
  state : PlaybackState
deriving DecidableEq

/-- JavaScript truthiness of the `currentId` field (`null` and the empty
string are falsy). -/
def jsTruthy (x : Option String) : Bool :=
  match x with
  | none => false
  | some v => v != ""

/-- First index of `v` in `l` (`Array.prototype.indexOf`, found case). -/
def idxOf : List String → String → Option Nat
  | [], _ => none
  | a :: t, v => if a == v then some 0 else (idxOf t v).map (· + 1)

/-- `queue.indexOf(currentId)` of the source: `-1` when `currentId` is
`null` (no string array element is `null`) or absent. -/
def jsIndexOf (l : List String) (x : Option String) : Int :=
  match x with
  | none => -1
  | some v =>
    match idxOf l v with
    | none => -1
    | some i => (i : Int)

/-- `newQueue[0] || null` of `removeTrack`: `null` when the list is empty
(`undefined` is falsy) or its head is the empty string (falsy). -/
def jsHeadOrNull (l : List String) : Option String :=
  match l with
  | [] => none
  | h :: _ => if h == "" then none else some h

/-! ## Player: handlers -/

/-- `playNext` of the source. -/
def playNext (s : PlaybackState) : PlaybackState :=
  if s.queue.length = 0 then s
  else
    let idx := jsIndexOf s.queue s.currentId
    let nextId :=
      if 0 ≤ idx ∧ idx < (s.queue.length : Int) - 1 then s.queue.getD (idx.toNat + 1) ""
      else s.queue.getD 0 ""
    { s with currentId := some nextId, position := 0 }

/-- `playPrev` of the source.  Note the fallback of the not-found branch:
`idx > 0 ? queue[idx - 1] : queue[queue.length - 1]`, i.e. the *last*
element, which the wrap from index 0 shares with the `idx = -1` case. -/
def playPrev (s : PlaybackState) : PlaybackState :=
  if s.queue.length = 0 then s
  else
    let idx := jsIndexOf s.queue s.currentId
    let prevId :=
      if 0 < idx then s.queue.getD (idx.toNat - 1) ""
      else s.queue.getD (s.queue.length - 1) ""
    { s with currentId := some prevId, position := 0 }

/-- `playTrack` of the source. -/
def playTrack (s : PlaybackState) (id : String) : PlaybackState :=
  { s with currentId := some id,
           queue := if s.queue.contains id then s.queue else s.queue ++ [id] }

/-- `removeTrack` of the source: filter the library and the queue; when
the removed id was current, reset the position and move `currentId` to
`newQueue[0] || null`. -/
def removeTrack (p : PlayerModel) (id : String) : PlayerModel :=
  let library := p.library.filter fun t => t.id != id
  let s := p.state
  let newQueue := s.queue.filter fun q => q != id
  let state :=
    if s.currentId == some id then
      { s with queue := newQueue, currentId := jsHeadOrNull newQueue, position := 0 }
    else
      { s with queue := newQueue }
  ⟨library, state⟩

/-- The per-accepted-file playback-state update of `handleUpload`: seed
`currentId`/`queue` when nothing is current (`!s.currentId`), else
append the fresh id to the queue. -/
def uploadStateUpdate (s : PlaybackState) (newId : String) : PlaybackState :=
  if jsTruthy s.currentId then { s with queue := s.queue ++ [newId] }
  else { s with currentId := some newId, queue := [newId] }

/-- The upload extension filter `/\.mp3$/i.test(f.name)`: the name ends
with `.mp3` compared case-insensitively. -/
def isMp3Name (name : String) : Bool :=
  ".mp3".data.isSuffixOf (name.data.map Char.toLower)

/-- The `mp3s` local of `handleUpload`: the accepted file names. -/
def mp3s (files : List String) : List String := files.filter isMp3Name

/-- The `nonMp3Count` local of `handleUpload`. -/
def nonMp3Count (files : List String) : Nat := files.length - (mp3s files).length

/-- Number of `alert` calls `handleUpload` makes for a batch: one
aggregated notification iff at least one file was rejected. -/
def uploadAlertCount (files : List String) : Nat :=
  if 0 < nonMp3Count files then 1 else 0

/-! ## Persisted reads

The storage access wrapped in `try`/`catch` is modelled by an explicit
outcome: the read raised, the key was missing (`getItem` returned
`null`), or a string value was found.  `JSON.parse` (respectively
`new Date(raw)`) is injected as a function parameter; `none` models a
parse exception (respectively an `Invalid Date`).  Each loader being a
total Lean function is the model of "never raises": every outcome maps
to a value. -/

/-- Outcome of a `localStorage.getItem` call inside `try`/`catch`. -/
inductive StoreRead where
  | raised
  | missing
  | value (raw : String)
deriving DecidableEq

/-- The default playback bundle `{currentId:null, position:0, volume:0.9,
queue:[]}`. -/
def defaultPlayback : PlaybackState := ⟨none, 0, 9 / 10, []⟩

/-- `loadLibrary` of the source. -/
def loadLibrary (r : StoreRead) (parse : String → Option (List Track)) : List Track :=
  match r with
  | .raised => []
  | .missing => []
  | .value raw =>
    if raw == "" then []
    else match parse raw with
      | none => []
      | some lib => lib

/-- `loadPlaybackState` of the source. -/
def loadPlaybackState (r : StoreRead) (parse : String → Option PlaybackState) :
    PlaybackState :=
  match r with
  | .raised => defaultPlayback
  | .missing => defaultPlayback
  | .value raw =>
    if raw == "" then defaultPlayback
    else match parse raw with
      | none => defaultPlayback
      | some s => s

/-- The calendar `view` initializer: `localStorage.getItem('calendar-view')
|| 'month'`, `'month'` on a raised read.  The raw string is used as the
view with no parsing step. -/
def loadCalendarView (r : StoreRead) : String :=
  match r with
  | .raised => "month"
  | .missing => "month"
  | .value raw => if raw == "" then "month" else raw

/-- The calendar `selected` initializer:
`raw ? startOfDay(new Date(raw)) : null`, `null` on a raised read.  The
outer `Option` is the `Date | null` type (`none` = `null`); the inner
`Option CalDate` is the `Date` value, `none` standing for an
`Invalid Date` (`new Date` never throws on a string; `setHours` leaves
an invalid date invalid). -/
def loadCalendarSelected (r : StoreRead) (parseDate : String → Option CalDate) :
    Option (Option CalDate) :=
  match r with
  | .raised => none
  | .missing => none
  | .value raw =>
    if raw == "" then none
    else some (Option.map startOfDay (parseDate raw))

/-- The spec's invariant on the playback bundle: `currentId` is `null` or
an id present in `queue`. -/
def InvCurrent (s : PlaybackState) : Prop :=
  ∀ v, s.currentId = some v → v ∈ s.queue

/-! ## List helper lemmas -/

theorem getD_mem (l : List String) (i : Nat) (d : String) (h : i < l.length) :
    l.getD i d ∈ l := by
  rw [List.getD_eq_getElem l d h]
  exact List.getElem_mem h

theorem getElemD_mem (l : List String) (i : Nat) (d : String) (h : i < l.length) :
    l[i]?.getD d ∈ l := by
  rw [List.getElem?_eq_getElem h]
  exact List.getElem_mem h

theorem idxOf_eq_none_iff (l : List String) (v : String) :
    idxOf l v = none ↔ v ∉ l := by
  induction l with
  | nil => simp [idxOf]
  | cons a t ih =>
    by_cases hav : a = v
    · simp [idxOf, hav]
    · simp only [idxOf, beq_iff_eq, hav, if_false]
      cases h : idxOf t v with
      | none =>
        rw [h] at ih
        have hvt : v ∉ t := ih.mp rfl
        simp [hvt, Ne.symm hav]
      | some j =>
        rw [h] at ih
        have hvt : v ∈ t := by
          by_contra hc
          simpa using ih.mpr hc
        simp [hvt]

theorem idxOf_lt_length (l : List String) (v : String) (i : Nat)
    (h : idxOf l v = some i) : i < l.length := by
  induction l generalizing i with
  | nil => simp [idxOf] at h
  | cons a t ih =>
    by_cases hav : a = v
    · simp [idxOf, hav] at h
      simp [← h]
    · cases ht : idxOf t v with
      | none => simp [idxOf, hav, ht] at h
      | some j =>
        simp [idxOf, hav, ht] at h
        have := ih j ht
        simp only [List.length_cons]
        omega

theorem idxOf_getD (l : List String) (v : String) (i : Nat)
    (h : idxOf l v = some i) : l.getD i "" = v := by
  induction l generalizing i with
  | nil => simp [idxOf] at h
  | cons a t ih =>
    by_cases hav : a = v
    · simp [idxOf, hav] at h
      simp [← h, hav]
    · cases ht : idxOf t v with
      | none => simp [idxOf, hav, ht] at h
      | some j =>
        simp [idxOf, hav, ht] at h
        subst h
        simpa using ih j ht

theorem idxOf_of_first (l : List String) (v : String) (i : Nat)
    (h : i < l.length) (hv : l.getD i "" = v)
    (hf : ∀ j, j < i → l.getD j "" ≠ v) : idxOf l v = some i := by
  induction l generalizing i with
  | nil => simp at h
  | cons a t ih =>
    cases i with
    | zero =>
      simp at hv
      simp [idxOf, hv]
    | succ j =>
      have ha : ¬(a = v) := by
        have := hf 0 (Nat.succ_pos j)
        simpa using this
      have ht : idxOf t v = some j := by
        apply ih
        · simpa using h
        · simpa using hv
        · intro k hk
          have := hf (k + 1) (by omega)
          simpa using this
      simp [idxOf, ha, ht]

/-! ## Claims about `playNext` / `playPrev` -/

/-- C1 (amended): for a non-empty queue whose `currentId` is not an
element of the queue (including `currentId = null`), `next()` sets
`currentId` to `queue[0]`, while `prev()` sets it to the *last* queue
element `queue[queue.length - 1]` (these coincide only on singleton
queues).  The original claim said `prev()` also defaults to `queue[0]`. -/
theorem absent_current_next_prev (s : PlaybackState)
    (hne : s.queue ≠ [])
    (habs : ∀ v, s.currentId = some v → v ∉ s.queue) :
    (playNext s).currentId = some (s.queue.getD 0 "") ∧
    (playPrev s).currentId = some (s.queue.getD (s.queue.length - 1) "") := by
  have hidx : jsIndexOf s.queue s.currentId = -1 := by
    cases hc : s.currentId with
    | none => simp [jsIndexOf]
    | some v =>
      have h0 : idxOf s.queue v = none := (idxOf_eq_none_iff _ _).mpr (habs v hc)
      simp [jsIndexOf, h0]
  have hlen : ¬(s.queue.length = 0) := by
    simpa [List.length_eq_zero] using hne
  constructor
  · simp only [playNext, hlen, if_false, hidx]
    norm_num
  · simp only [playPrev, hlen, if_false, hidx]
    norm_num

/-- C1 witness: the amended statement at the concrete state
`{currentId: null, queue: ["a","b"]}`. -/
theorem absent_current_next_prev_witness :
    (playNext ⟨none, 0, 1, ["a", "b"]⟩).currentId = some "a" ∧
    (playPrev ⟨none, 0, 1, ["a", "b"]⟩).currentId = some "b" := by
  have h := absent_current_next_prev ⟨none, 0, 1, ["a", "b"]⟩ (by decide)
    (by intro v hv; simp at hv)
  simpa using h

/-- C1 counterexample to the claim as stated: in the state
`{currentId: "z", queue: ["a","b"]}` the id `"z"` is not in the queue,
yet `prev()` yields `"b"` (the last element), not `queue[0] = "a"`. -/
theorem absent_current_prev_counterexample :
    ("z" ∉ (["a", "b"] : List String)) ∧
    (playPrev ⟨some "z", 0, 1, ["a", "b"]⟩).currentId = some "b" ∧
    (playPrev ⟨some "z", 0, 1, ["a", "b"]⟩).currentId ≠ some "a" := by
  refine ⟨by decide, by decide, by decide⟩

/-- C2: on an empty queue `next()`/`prev()` are no-ops on the whole
state; otherwise, with `currentId` located at index `i` of the queue
(its first occurrence, the index `queue.indexOf(currentId)` locates),
`next()` moves to index `(i+1) mod length` and `prev()` to index
`(i+length-1) mod length`; in particular `next()` on `["a","b","c"]`
with `currentId = "c"` wraps to `"a"`. -/
theorem queue_wrap_next_prev :
    (∀ s : PlaybackState, s.queue = [] → playNext s = s ∧ playPrev s = s) ∧
    (∀ (s : PlaybackState) (v : String) (i : Nat),
      s.currentId = some v → i < s.queue.length → s.queue.getD i "" = v →
      (∀ j, j < i → s.queue.getD j "" ≠ v) →
      (playNext s).currentId = some (s.queue.getD ((i + 1) % s.queue.length) "") ∧
      (playPrev s).currentId =
        some (s.queue.getD ((i + s.queue.length - 1) % s.queue.length) "")) ∧
    (playNext ⟨some "c", 0, 9/10, ["a", "b", "c"]⟩).currentId = some "a" := by
  refine ⟨?_, ?_, by decide⟩
  · intro s hq
    constructor <;> simp [playNext, playPrev, hq]
  · intro s v i hc hi hv hf
    have hfind : idxOf s.queue v = some i := idxOf_of_first _ _ _ hi hv hf
    have hjs : jsIndexOf s.queue s.currentId = (i : Int) := by
      simp [jsIndexOf, hc, hfind]
    have hlen : ¬(s.queue.length = 0) := by omega
    constructor
    · simp only [playNext, hlen, if_false, hjs]
      by_cases hlt : i + 1 < s.queue.length
      · have hcond : (0 : Int) ≤ (i : Int) ∧ (i : Int) < (s.queue.length : Int) - 1 := by
          constructor <;> omega
        rw [if_pos hcond, Nat.mod_eq_of_lt hlt]
        simp
      · have hcond : ¬((0 : Int) ≤ (i : Int) ∧ (i : Int) < (s.queue.length : Int) - 1) := by
          omega
        rw [if_neg hcond]
        have : (i + 1) % s.queue.length = 0 := by
          have : i + 1 = s.queue.length := by omega
          simp [this]
        simp [this]
    · simp only [playPrev, hlen, if_false, hjs]
      by_cases hpos : 0 < i
      · have hcond : (0 : Int) < (i : Int) := by omega
        rw [if_pos hcond]
        have hmod : (i + s.queue.length - 1) % s.queue.length = i - 1 := by
          have h1 : i + s.queue.length - 1 = (i - 1) + s.queue.length := by omega
          rw [h1, Nat.add_mod_right, Nat.mod_eq_of_lt (by omega)]
        rw [hmod]
        simp
      · have hcond : ¬((0 : Int) < (i : Int)) := by omega
        rw [if_neg hcond]
        have hmod : (i + s.queue.length - 1) % s.queue.length = s.queue.length - 1 := by
          have h0 : i = 0 := by omega
          rw [h0, Nat.mod_eq_of_lt (by omega)]
          omega
        rw [hmod]

/-- C2 witness: the wrap equations applied at
`{currentId: "b", queue: ["a","b","c"]}` (index 1) and at
`{currentId: "a", queue: ["a","b","c"]}` (index 0, `prev` wraps to the
last element). -/
theorem queue_wrap_next_prev_witness :
    ((playNext ⟨some "b", 0, 1, ["a", "b", "c"]⟩).currentId = some "c" ∧
      (playPrev ⟨some "b", 0, 1, ["a", "b", "c"]⟩).currentId = some "a") ∧
    (playPrev ⟨some "a", 0, 1, ["a", "b", "c"]⟩).currentId = some "c" := by
  constructor
  · have h := queue_wrap_next_prev.2.1 ⟨some "b", 0, 1, ["a", "b", "c"]⟩ "b" 1
      rfl (by decide) (by decide)
      (by intro j hj; have hj0 : j = 0 := by omega
          subst hj0; decide)
    simpa using h
  · have h := queue_wrap_next_prev.2.1 ⟨some "a", 0, 1, ["a", "b", "c"]⟩ "a" 0
      rfl (by decide) (by decide) (by intro j hj; omega)
    simpa using h.2

/-- C10: whenever the queue is non-empty, `next()` and `prev()` write
`position := 0` in the very same state update that writes `currentId` —
even when the written `currentId` equals the previous one, as on a
single-element queue. -/
theorem next_prev_reset_position :
    (∀ s : PlaybackState, s.queue ≠ [] →
      (playNext s).position = 0 ∧ (playPrev s).position = 0) ∧
    (∀ (s : PlaybackState) (v : String), s.queue = [v] → s.currentId = some v →
      (playNext s).currentId = s.currentId ∧ (playNext s).position = 0 ∧
      (playPrev s).currentId = s.currentId ∧ (playPrev s).position = 0) := by
  constructor
  · intro s hne
    have hlen : ¬(s.queue.length = 0) := by
      simpa [List.length_eq_zero] using hne
    constructor <;> simp [playNext, playPrev, hlen]
  · intro s v hq hc
    have hfind : idxOf s.queue v = some 0 := by simp [hq, idxOf]
    have hjs : jsIndexOf s.queue s.currentId = (0 : Int) := by
      simp [jsIndexOf, hc, hfind]
    have hlen : ¬(s.queue.length = 0) := by simp [hq]
    have hlen1 : s.queue.length = 1 := by simp [hq]
    refine ⟨?_, by simp [playNext, hlen], ?_, by simp [playPrev, hlen]⟩
    · simp [playNext, hlen, hq, hc, jsIndexOf, idxOf]
    · simp [playPrev, hlen, hq, hc, jsIndexOf, idxOf]

/-- C10 witness: on the singleton queue `["a"]` with `currentId = "a"`,
both `next()` and `prev()` keep `currentId` and reset `position` to 0. -/
theorem next_prev_reset_position_witness :
    (playNext ⟨some "a", 5, 1, ["a"]⟩).currentId = some "a" ∧
    (playNext ⟨some "a", 5, 1, ["a"]⟩).position = 0 ∧
    (playPrev ⟨some "a", 5, 1, ["a"]⟩).position = 0 := by
  have h := next_prev_reset_position.2 ⟨some "a", 5, 1, ["a"]⟩ "a" rfl rfl
  exact ⟨h.1, h.2.1, h.2.2.2⟩

/-! ## Claims about the playback invariant, `removeTrack` and upload -/

/-- C4: the predicate "`currentId` is `null` or an id present in
`queue`" is preserved by the state update of an accepted upload, by
`play(id)`, by `remove(id)`, and by `next()`/`prev()`. -/
theorem current_in_queue_invariant :
    ∀ (p : PlayerModel) (id : String), InvCurrent p.state →
      InvCurrent (uploadStateUpdate p.state id) ∧
      InvCurrent (playTrack p.state id) ∧
      InvCurrent (removeTrack p id).state ∧
      InvCurrent (playNext p.state) ∧
      InvCurrent (playPrev p.state) := by
  intro p id hinv
  refine ⟨?_, ?_, ?_, ?_, ?_⟩
  · -- upload
    intro w hw
    by_cases ht : jsTruthy p.state.currentId
    · simp [uploadStateUpdate, ht] at hw ⊢
      exact Or.inl (hinv w hw)
    · simp [uploadStateUpdate, ht] at hw ⊢
      simp [hw]
  · -- playTrack
    intro w hw
    have hw' : w = id := by
      have := hw
      simp [playTrack] at this
      exact this.symm
    subst hw'
    by_cases hmem : w ∈ p.state.queue
    · simp [playTrack, hmem]
    · simp [playTrack, hmem]
  · -- removeTrack
    intro w hw
    by_cases hcur : p.state.currentId == some id
    · cases hq : p.state.queue.filter (fun q => q != id) with
      | nil => simp [removeTrack, hcur, hq, jsHeadOrNull] at hw
      | cons h t =>
        by_cases hh : h = ""
        · simp [removeTrack, hcur, hq, jsHeadOrNull, hh] at hw
        · simp [removeTrack, hcur, hq, jsHeadOrNull, hh] at hw ⊢
          simp [hw]
    · simp [removeTrack, hcur] at hw ⊢
      rw [hw] at hcur
      simp at hcur
      exact ⟨hinv w hw, hcur⟩
  · -- playNext
    intro w hw
    by_cases hlen : p.state.queue.length = 0
    · simp [playNext, hlen] at hw ⊢
      exact hinv w hw
    · have hq : (playNext p.state).queue = p.state.queue := by
        simp [playNext, hlen]
      rw [hq]
      simp [playNext, hlen] at hw
      subst hw
      split
      · next hcond =>
        apply getElemD_mem
        omega
      · apply getElemD_mem
        omega
  · -- playPrev
    intro w hw
    by_cases hlen : p.state.queue.length = 0
    · simp [playPrev, hlen] at hw ⊢
      exact hinv w hw
    · have hq : (playPrev p.state).queue = p.state.queue := by
        simp [playPrev, hlen]
      rw [hq]
      simp [playPrev, hlen] at hw
      subst hw
      split
      · next hcond =>
        obtain ⟨j, hj, hjb⟩ : ∃ j : Nat,
            jsIndexOf p.state.queue p.state.currentId = (j : Int) ∧
            j < p.state.queue.length := by
          cases hc : p.state.currentId with
          | none => rw [hc] at hcond; simp [jsIndexOf] at hcond
          | some v =>
            cases hfind : idxOf p.state.queue v with
            | none => rw [hc] at hcond; simp [jsIndexOf, hfind] at hcond
            | some j =>
              exact ⟨j, by simp [jsIndexOf, hc, hfind], idxOf_lt_length _ _ _ hfind⟩
        rw [hj]
        apply getElemD_mem
        omega
      · apply getElemD_mem
        omega

/-- C4 witness: the invariant holds at `{currentId: "a", queue: ["a"]}`
and is preserved there by all five operations (shown for `next`). -/
theorem current_in_queue_invariant_witness :
    InvCurrent (playNext (PlayerModel.mk [] ⟨some "a", 0, 1, ["a"]⟩).state) := by
  have h := current_in_queue_invariant (PlayerModel.mk [] ⟨some "a", 0, 1, ["a"]⟩) "b"
    (by intro v hv; simp at hv; simp [hv])
  exact h.2.2.2.1

/-- C3 (amended): for an id present in the library, `remove(id)` deletes
every library entry with that id and keeps all others, removes every
occurrence of the id from the queue, and — when the id was current —
resets `position` to 0 and sets `currentId` to the head of the resulting
queue when that head is a non-empty id, and to `null` when the resulting
queue is empty *or its head is the empty-string id* (the source computes
`newQueue[0] || null`, and an empty-string head is falsy).  When the
removed id was not current, `currentId` and `position` are unchanged.
In particular `remove(currentId)` on a single-item queue leaves
`currentId = null` and `position = 0`. -/
theorem removeTrack_spec :
    ∀ (p : PlayerModel) (id : String), id ∈ p.library.map Track.id →
      (∀ t ∈ (removeTrack p id).library, t.id ≠ id) ∧
      (∀ t ∈ p.library, t.id ≠ id → t ∈ (removeTrack p id).library) ∧
      (∀ q, q ∈ (removeTrack p id).state.queue ↔ q ∈ p.state.queue ∧ q ≠ id) ∧
      (p.state.currentId = some id →
        (removeTrack p id).state.position = 0 ∧
        ((removeTrack p id).state.queue = [] →
          (removeTrack p id).state.currentId = none) ∧
        (∀ h t, (removeTrack p id).state.queue = h :: t → h ≠ "" →
          (removeTrack p id).state.currentId = some h) ∧
        (∀ h t, (removeTrack p id).state.queue = h :: t → h = "" →
          (removeTrack p id).state.currentId = none)) ∧
      (p.state.currentId ≠ some id →
        (removeTrack p id).state.currentId = p.state.currentId ∧
        (removeTrack p id).state.position = p.state.position) ∧
      (p.state.queue = [id] → p.state.currentId = some id →
        (removeTrack p id).state.currentId = none ∧
        (removeTrack p id).state.position = 0) := by
  intro p id _hlib
  have hqueue : (removeTrack p id).state.queue =
      p.state.queue.filter (fun q => q != id) := by
    by_cases hcur : p.state.currentId == some id <;> simp [removeTrack, hcur]
  refine ⟨?_, ?_, ?_, ?_, ?_, ?_⟩
  · intro t ht
    simp [removeTrack, List.mem_filter] at ht
    exact ht.2
  · intro t ht hne
    simp [removeTrack, List.mem_filter]
    exact ⟨ht, hne⟩
  · intro q
    rw [hqueue]
    simp [List.mem_filter]
  · intro hc
    have hcur : (p.state.currentId == some id) = true := by simp [hc]
    refine ⟨by simp [removeTrack, hcur], ?_, ?_, ?_⟩
    · intro hq
      rw [hqueue] at hq
      simp [removeTrack, hcur, hq, jsHeadOrNull]
    · intro h t hq hh
      rw [hqueue] at hq
      simp [removeTrack, hcur, hq, jsHeadOrNull, hh]
    · intro h t hq hh
      rw [hqueue] at hq
      simp [removeTrack, hcur, hq, jsHeadOrNull, hh]
  · intro hc
    have hcur : ¬((p.state.currentId == some id) = true) := by simp [hc]
    constructor <;> simp [removeTrack, hcur]
  · intro hq hc
    have hcur : (p.state.currentId == some id) = true := by simp [hc]
    have hfilter : p.state.queue.filter (fun q => q != id) = [] := by simp [hq]
    constructor <;> simp [removeTrack, hcur, hfilter, jsHeadOrNull]

/-- C3 witness: removing the current track of the single-item queue
`["a"]` nulls `currentId` and zeroes `position`. -/
theorem removeTrack_spec_witness :
    (removeTrack ⟨[⟨"a", "a", "a", "a", 0, 0⟩], ⟨some "a", 5, 1, ["a"]⟩⟩
      "a").state.currentId = none ∧
    (removeTrack ⟨[⟨"a", "a", "a", "a", 0, 0⟩], ⟨some "a", 5, 1, ["a"]⟩⟩
      "a").state.position = 0 := by
  have h := removeTrack_spec ⟨[⟨"a", "a", "a", "a", 0, 0⟩], ⟨some "a", 5, 1, ["a"]⟩⟩
    "a" (by decide)
  exact h.2.2.2.2.2 rfl rfl

/-- C3 counterexample to the claim as stated: removing the current track
`"x"` leaves the queue `[""]` (one remaining track whose id is the empty
string); the claim says `currentId` becomes the head `""` of the
resulting queue, but `newQueue[0] || null` evaluates to `null`. -/
theorem removeTrack_empty_head_counterexample :
    ((removeTrack ⟨[⟨"x", "x", "x", "x", 0, 0⟩, ⟨"", "", "", "", 0, 0⟩],
        ⟨some "x", 0, 1, ["x", ""]⟩⟩ "x").state.queue = [""]) ∧
    ((removeTrack ⟨[⟨"x", "x", "x", "x", 0, 0⟩, ⟨"", "", "", "", 0, 0⟩],
        ⟨some "x", 0, 1, ["x", ""]⟩⟩ "x").state.currentId ≠ some "") := by
  refine ⟨by decide, by decide⟩

/-- C8 (amended): an accepted upload seeds `currentId := newId`,
`queue := [newId]` when `currentId` is `null` *or the empty string*
(the source tests `!s.currentId`, and the empty string is falsy);
when `currentId` is a non-empty id it appends `newId` to the queue and
leaves everything else unchanged.  Uploading two files into a state
with no current track therefore yields `currentId = ` first id and the
queue holding both ids in upload order (for the non-empty generated
ids). -/
theorem uploadStateUpdate_spec :
    ∀ (s : PlaybackState) (newId : String),
      ((s.currentId = none ∨ s.currentId = some "") →
        uploadStateUpdate s newId =
          { s with currentId := some newId, queue := [newId] }) ∧
      (∀ v, s.currentId = some v → v ≠ "" →
        uploadStateUpdate s newId = { s with queue := s.queue ++ [newId] }) ∧
      (∀ idA idB, s.currentId = none → idA ≠ "" →
        (uploadStateUpdate (uploadStateUpdate s idA) idB).currentId = some idA ∧
        (uploadStateUpdate (uploadStateUpdate s idA) idB).queue = [idA, idB]) := by
  intro s newId
  refine ⟨?_, ?_, ?_⟩
  · intro hc
    rcases hc with hc | hc <;> simp [uploadStateUpdate, jsTruthy, hc]
  · intro v hc hv
    simp [uploadStateUpdate, jsTruthy, hc, hv]
  · intro idA idB hc hA
    simp [uploadStateUpdate, jsTruthy, hc, hA]

/-- C8 witness: two uploads from the empty default state. -/
theorem uploadStateUpdate_spec_witness :
    (uploadStateUpdate (uploadStateUpdate ⟨none, 0, 1, []⟩ "A") "B").currentId
        = some "A" ∧
    (uploadStateUpdate (uploadStateUpdate ⟨none, 0, 1, []⟩ "A") "B").queue
        = ["A", "B"] :=
  (uploadStateUpdate_spec ⟨none, 0, 1, []⟩ "B").2.2 "A" "B" rfl (by decide)

/-- C8 counterexample to the claim as stated: in the state
`{currentId: "", queue: ["x"]}` the current id is *not* `null`, so the
claim demands the new id be appended (`queue = ["x","n"]`, `currentId`
unchanged); the code's falsy test `!s.currentId` instead reseeds the
queue. -/
theorem upload_empty_current_counterexample :
    ((⟨some "", 0, 1, ["x"]⟩ : PlaybackState).currentId ≠ none) ∧
    (uploadStateUpdate ⟨some "", 0, 1, ["x"]⟩ "n").queue = ["n"] ∧
    (uploadStateUpdate ⟨some "", 0, 1, ["x"]⟩ "n").queue ≠ ["x", "n"] ∧
    (uploadStateUpdate ⟨some "", 0, 1, ["x"]⟩ "n").currentId ≠ some "" := by
  refine ⟨by decide, by decide, by decide, by decide⟩

/-- C7: the upload filter accepts exactly the file names with a
case-insensitive `.mp3` suffix (`"Song.MP3"` in, `"Song.wav"` out), and
a batch with at least one rejected file triggers exactly one aggregated
notification (none otherwise). -/
theorem upload_mp3_filter_spec :
    (∀ (files : List String) (name : String),
      name ∈ mp3s files ↔ name ∈ files ∧ isMp3Name name = true) ∧
    isMp3Name "Song.MP3" = true ∧
    isMp3Name "Song.wav" = false ∧
    (∀ files : List String, 0 < nonMp3Count files → uploadAlertCount files = 1) ∧
    (∀ files : List String, nonMp3Count files = 0 → uploadAlertCount files = 0) := by
  refine ⟨?_, by decide, by decide, ?_, ?_⟩
  · intro files name
    simp [mp3s, List.mem_filter]
  · intro files h
    simp [uploadAlertCount, h]
  · intro files h
    simp [uploadAlertCount, h]

/-- C7 witness: the batch `["Song.MP3", "Song.wav"]` keeps the first
file and produces one aggregated alert. -/
theorem upload_mp3_filter_spec_witness :
    ("Song.MP3" ∈ mp3s ["Song.MP3", "Song.wav"]) ∧
    uploadAlertCount ["Song.MP3", "Song.wav"] = 1 := by
  refine ⟨(upload_mp3_filter_spec.1 ["Song.MP3", "Song.wav"] "Song.MP3").mpr
    ⟨by decide, upload_mp3_filter_spec.2.1⟩,
    upload_mp3_filter_spec.2.2.2.1 ["Song.MP3", "Song.wav"] (by decide)⟩

/-- C9 (amended): every persisted read is a total function of the read
outcome (so it never raises), and a missing key or a failed parse yields
the documented default — empty library, the default playback bundle,
`"month"` — except the calendar selected date: there a missing key, an
empty stored value, or a raised read yields `null`, but a *non-empty*
stored value that fails to parse as a date yields an Invalid-Date value
(`some none`), not `null` (`new Date(raw)` does not throw, and the
falsy test only catches the empty string). -/
theorem persisted_reads_fail_soft :
    (∀ parse : String → Option (List Track),
      loadLibrary .raised parse = [] ∧ loadLibrary .missing parse = [] ∧
      ∀ raw, parse raw = none → loadLibrary (.value raw) parse = []) ∧
    (∀ parse : String → Option PlaybackState,
      loadPlaybackState .raised parse = defaultPlayback ∧
      loadPlaybackState .missing parse = defaultPlayback ∧
      ∀ raw, parse raw = none → loadPlaybackState (.value raw) parse = defaultPlayback) ∧
    defaultPlayback = { currentId := none, position := 0, volume := 9 / 10, queue := [] } ∧
    (loadCalendarView .raised = "month" ∧ loadCalendarView .missing = "month") ∧
    (∀ parseDate : String → Option CalDate,
      loadCalendarSelected .raised parseDate = none ∧
      loadCalendarSelected .missing parseDate = none ∧
      loadCalendarSelected (.value "") parseDate = none ∧
      (∀ raw, raw ≠ "" → parseDate raw = none →
        loadCalendarSelected (.value raw) parseDate = some none)) := by
  refine ⟨?_, ?_, rfl, ⟨rfl, rfl⟩, ?_⟩
  · intro parse
    refine ⟨rfl, rfl, ?_⟩
    intro raw hparse
    by_cases hraw : raw = "" <;> simp [loadLibrary, hraw, hparse]
  · intro parse
    refine ⟨rfl, rfl, ?_⟩
    intro raw hparse
    by_cases hraw : raw = "" <;> simp [loadPlaybackState, hraw, hparse]
  · intro parseDate
    refine ⟨rfl, rfl, rfl, ?_⟩
    intro raw hraw hparse
    simp [loadCalendarSelected, hraw, hparse]

/-- C9 witness: the fail-soft equations applied to a parser that fails
on everything, the stored value `"x"`, and the empty stored value that
the component itself persists when `selected` is null. -/
theorem persisted_reads_fail_soft_witness :
    loadLibrary (StoreRead.value "x") (fun _ => none) = [] ∧
    loadPlaybackState StoreRead.missing (fun _ => none) = defaultPlayback ∧
    loadCalendarSelected (StoreRead.value "") (fun _ => none) = none ∧
    loadCalendarSelected (StoreRead.value "x") (fun _ => none) = some none := by
  refine ⟨(persisted_reads_fail_soft.1 (fun _ => none)).2.2 "x" rfl,
    (persisted_reads_fail_soft.2.1 (fun _ => none)).2.1,
    (persisted_reads_fail_soft.2.2.2.2 (fun _ => none)).2.2.1,
    (persisted_reads_fail_soft.2.2.2.2 (fun _ => none)).2.2.2 "x" (by decide) rfl⟩

/-- C9 counterexample to the claim as stated: a stored
`calendar-selected` value that fails to parse as a date does *not* load
as the documented default `null`; the component keeps an Invalid-Date
value. -/
theorem selected_invalid_date_counterexample :
    loadCalendarSelected (StoreRead.value "not-a-date") (fun _ => none) ≠ none := by
  decide

/-! ## Calendar lemmas: successor / predecessor structure -/

theorem daysInMonth_pos (y : Int) (m : Nat) : 1 ≤ daysInMonth y m := by
  unfold daysInMonth
  split
  any_goals omega
  split <;> omega

theorem daysInMonth_le (y : Int) (m : Nat) : daysInMonth y m ≤ 31 := by
  unfold daysInMonth
  split
  any_goals omega
  split <;> omega

theorem valid_mk (y : Int) (m d : Nat) :
    (CalDate.mk y m d).Valid ↔ m < 12 ∧ 1 ≤ d ∧ d ≤ daysInMonth y m := Iff.rfl

theorem valid_succD (dt : CalDate) (h : dt.Valid) : (succD dt).Valid := by
  obtain ⟨y, m, d⟩ := dt
  rw [valid_mk] at h
  obtain ⟨hm, hd1, hd2⟩ := h
  by_cases hlt : d < daysInMonth y m
  · have hs : succD ⟨y, m, d⟩ = ⟨y, m, d + 1⟩ := by simp [succD, hlt]
    rw [hs, valid_mk]
    omega
  · by_cases hm11 : m < 11
    · have hs : succD ⟨y, m, d⟩ = ⟨y, m + 1, 1⟩ := by simp [succD, hlt, hm11]
      rw [hs, valid_mk]
      have := daysInMonth_pos y (m + 1)
      omega
    · have hs : succD ⟨y, m, d⟩ = ⟨y + 1, 0, 1⟩ := by simp [succD, hlt, hm11]
      rw [hs, valid_mk]
      have := daysInMonth_pos (y + 1) 0
      omega

theorem valid_predD (dt : CalDate) (h : dt.Valid) : (predD dt).Valid := by
  obtain ⟨y, m, d⟩ := dt
  rw [valid_mk] at h
  obtain ⟨hm, hd1, hd2⟩ := h
  by_cases hgt : 1 < d
  · have hs : predD ⟨y, m, d⟩ = ⟨y, m, d - 1⟩ := by simp [predD, hgt]
    rw [hs, valid_mk]
    omega
  · by_cases hm0 : 0 < m
    · have hs : predD ⟨y, m, d⟩ = ⟨y, m - 1, daysInMonth y (m - 1)⟩ := by
        simp [predD, hgt, hm0]
      rw [hs, valid_mk]
      have := daysInMonth_pos y (m - 1)
      omega
    · have hs : predD ⟨y, m, d⟩ = ⟨y - 1, 11, 31⟩ := by simp [predD, hgt, hm0]
      rw [hs, valid_mk]
      have h31 : daysInMonth (y - 1) 11 = 31 := rfl
      omega

theorem predD_succD (dt : CalDate) (h : dt.Valid) : predD (succD dt) = dt := by
  obtain ⟨y, m, d⟩ := dt
  rw [valid_mk] at h
  obtain ⟨hm, hd1, hd2⟩ := h
  by_cases hlt : d < daysInMonth y m
  · have hs : succD ⟨y, m, d⟩ = ⟨y, m, d + 1⟩ := by simp [succD, hlt]
    rw [hs]
    have h1 : 1 < d + 1 := by omega
    simp [predD, h1]
  · have hday : d = daysInMonth y m := by omega
    by_cases hm11 : m < 11
    · have hs : succD ⟨y, m, d⟩ = ⟨y, m + 1, 1⟩ := by simp [succD, hlt, hm11]
      rw [hs]
      simp [predD, hday]
    · have hs : succD ⟨y, m, d⟩ = ⟨y + 1, 0, 1⟩ := by simp [succD, hlt, hm11]
      rw [hs]
      have hm' : m = 11 := by omega
      have h31 : daysInMonth (y + 1 - 1) 11 = 31 := rfl
      have h31' : daysInMonth y 11 = 31 := rfl
      subst hm'
      simp [predD]
      omega

theorem succD_predD (dt : CalDate) (h : dt.Valid) : succD (predD dt) = dt := by
  obtain ⟨y, m, d⟩ := dt
  rw [valid_mk] at h
  obtain ⟨hm, hd1, hd2⟩ := h
  by_cases hgt : 1 < d
  · have hs : predD ⟨y, m, d⟩ = ⟨y, m, d - 1⟩ := by simp [predD, hgt]
    rw [hs]
    have h1 : d - 1 < daysInMonth y m := by omega
    simp [succD, h1]
    omega
  · have hday : d = 1 := by omega
    by_cases hm0 : 0 < m
    · have hs : predD ⟨y, m, d⟩ = ⟨y, m - 1, daysInMonth y (m - 1)⟩ := by
        simp [predD, hgt, hm0]
      rw [hs]
      have h1 : ¬(daysInMonth y (m - 1) < daysInMonth y (m - 1)) := by omega
      have h2 : m - 1 < 11 := by omega
      simp [succD, h1, h2]
      omega
    · have hs : predD ⟨y, m, d⟩ = ⟨y - 1, 11, 31⟩ := by simp [predD, hgt, hm0]
      rw [hs]
      have h31 : daysInMonth (y - 1) 11 = 31 := rfl
      have h1 : ¬((31 : Nat) < daysInMonth (y - 1) 11) := by omega
      simp [succD, h1]
      omega

/-! ## Calendar lemmas: epoch-day arithmetic -/

theorem daysFromCivil_succD (dt : CalDate) (h : dt.Valid) :
    daysFromCivil (succD dt) = daysFromCivil dt + 1 := by
  obtain ⟨y, m, d⟩ := dt
  rw [valid_mk] at h
  obtain ⟨hm, hd1, hd2⟩ := h
  interval_cases m
  · -- month 0
    by_cases hlt : d < daysInMonth y 0
    · have hs : succD ⟨y, 0, d⟩ = ⟨y, 0, d + 1⟩ := by simp [succD, hlt]
      rw [hs]
      simp only [daysFromCivil]
      norm_num
      omega
    · have hdk : daysInMonth y 0 = 31 := rfl
      have hd : d = 31 := by omega
      subst hd
      have hs : succD ⟨y, 0, 31⟩ = ⟨y, 1, 1⟩ := by simp [succD, daysInMonth]
      rw [hs]
      simp only [daysFromCivil]
      norm_num
      omega
  · -- month 1 (February)
    by_cases hleap : isLeap y
    · have hdk : daysInMonth y 1 = 29 := by simp [daysInMonth, hleap]
      rw [hdk] at hd2
      by_cases hlt : d < 29
      · have hs : succD ⟨y, 1, d⟩ = ⟨y, 1, d + 1⟩ := by
          simp [succD, daysInMonth, hleap, hlt]
        rw [hs]
        simp only [daysFromCivil]
        norm_num
        omega
      · have hd : d = 29 := by omega
        subst hd
        have hs : succD ⟨y, 1, 29⟩ = ⟨y, 2, 1⟩ := by simp [succD, daysInMonth, hleap]
        rw [hs]
        simp only [daysFromCivil]
        norm_num
        simp only [isLeap, decide_eq_true_eq] at hleap
        omega
    · have hdk : daysInMonth y 1 = 28 := by simp [daysInMonth, hleap]
      rw [hdk] at hd2
      by_cases hlt : d < 28
      · have hs : succD ⟨y, 1, d⟩ = ⟨y, 1, d + 1⟩ := by
          simp [succD, daysInMonth, hleap, hlt]
        rw [hs]
        simp only [daysFromCivil]
        norm_num
        omega
      · have hd : d = 28 := by omega
        subst hd
        have hs : succD ⟨y, 1, 28⟩ = ⟨y, 2, 1⟩ := by simp [succD, daysInMonth, hleap]
        rw [hs]
        simp only [daysFromCivil]
        norm_num
        simp only [isLeap, decide_eq_true_eq] at hleap
        omega
  · -- month 2
    by_cases hlt : d < daysInMonth y 2
    · have hs : succD ⟨y, 2, d⟩ = ⟨y, 2, d + 1⟩ := by simp [succD, hlt]
      rw [hs]
      simp only [daysFromCivil]
      norm_num
      omega
    · have hdk : daysInMonth y 2 = 31 := rfl
      have hd : d = 31 := by omega
      subst hd
      have hs : succD ⟨y, 2, 31⟩ = ⟨y, 3, 1⟩ := by simp [succD, daysInMonth]
      rw [hs]
      simp only [daysFromCivil]
      norm_num
      omega
  · -- month 3
    by_cases hlt : d < daysInMonth y 3
    · have hs : succD ⟨y, 3, d⟩ = ⟨y, 3, d + 1⟩ := by simp [succD, hlt]
      rw [hs]
      simp only [daysFromCivil]
      norm_num
      omega
    · have hdk : daysInMonth y 3 = 30 := rfl
      have hd : d = 30 := by omega
      subst hd
      have hs : succD ⟨y, 3, 30⟩ = ⟨y, 4, 1⟩ := by simp [succD, daysInMonth]
      rw [hs]
      simp only [daysFromCivil]
      norm_num
      omega
  · -- month 4
    by_cases hlt : d < daysInMonth y 4
    · have hs : succD ⟨y, 4, d⟩ = ⟨y, 4, d + 1⟩ := by simp [succD, hlt]
      rw [hs]
      simp only [daysFromCivil]
      norm_num
      omega
    · have hdk : daysInMonth y 4 = 31 := rfl
      have hd : d = 31 := by omega
      subst hd
      have hs : succD ⟨y, 4, 31⟩ = ⟨y, 5, 1⟩ := by simp [succD, daysInMonth]
      rw [hs]
      simp only [daysFromCivil]
      norm_num
      omega
  · -- month 5
    by_cases hlt : d < daysInMonth y 5
    · have hs : succD ⟨y, 5, d⟩ = ⟨y, 5, d + 1⟩ := by simp [succD, hlt]
      rw [hs]
      simp only [daysFromCivil]
      norm_num
      omega
    · have hdk : daysInMonth y 5 = 30 := rfl
      have hd : d = 30 := by omega
      subst hd
      have hs : succD ⟨y, 5, 30⟩ = ⟨y, 6, 1⟩ := by simp [succD, daysInMonth]
      rw [hs]
      simp only [daysFromCivil]
      norm_num
      omega
  · -- month 6
    by_cases hlt : d < daysInMonth y 6
    · have hs : succD ⟨y, 6, d⟩ = ⟨y, 6, d + 1⟩ := by simp [succD, hlt]
      rw [hs]
      simp only [daysFromCivil]
      norm_num
      omega
    · have hdk : daysInMonth y 6 = 31 := rfl
      have hd : d = 31 := by omega
      subst hd
      have hs : succD ⟨y, 6, 31⟩ = ⟨y, 7, 1⟩ := by simp [succD, daysInMonth]
      rw [hs]
      simp only [daysFromCivil]
      norm_num
      omega
  · -- month 7
    by_cases hlt : d < daysInMonth y 7
    · have hs : succD ⟨y, 7, d⟩ = ⟨y, 7, d + 1⟩ := by simp [succD, hlt]
      rw [hs]
      simp only [daysFromCivil]
      norm_num
      omega
    · have hdk : daysInMonth y 7 = 31 := rfl
      have hd : d = 31 := by omega
      subst hd
      have hs : succD ⟨y, 7, 31⟩ = ⟨y, 8, 1⟩ := by simp [succD, daysInMonth]
      rw [hs]
      simp only [daysFromCivil]
      norm_num
      omega
  · -- month 8
    by_cases hlt : d < daysInMonth y 8
    · have hs : succD ⟨y, 8, d⟩ = ⟨y, 8, d + 1⟩ := by simp [succD, hlt]
      rw [hs]
      simp only [daysFromCivil]
      norm_num
      omega
    · have hdk : daysInMonth y 8 = 30 := rfl
      have hd : d = 30 := by omega
      subst hd
      have hs : succD ⟨y, 8, 30⟩ = ⟨y, 9, 1⟩ := by simp [succD, daysInMonth]
      rw [hs]
      simp only [daysFromCivil]
      norm_num
      omega
  · -- month 9
    by_cases hlt : d < daysInMonth y 9
    · have hs : succD ⟨y, 9, d⟩ = ⟨y, 9, d + 1⟩ := by simp [succD, hlt]
      rw [hs]
      simp only [daysFromCivil]
      norm_num
      omega
    · have hdk : daysInMonth y 9 = 31 := rfl
      have hd : d = 31 := by omega
      subst hd
      have hs : succD ⟨y, 9, 31⟩ = ⟨y, 10, 1⟩ := by simp [succD, daysInMonth]
      rw [hs]
      simp only [daysFromCivil]
      norm_num
      omega
  · -- month 10
    by_cases hlt : d < daysInMonth y 10
    · have hs : succD ⟨y, 10, d⟩ = ⟨y, 10, d + 1⟩ := by simp [succD, hlt]
      rw [hs]
      simp only [daysFromCivil]
      norm_num
      omega
    · have hdk : daysInMonth y 10 = 30 := rfl
      have hd : d = 30 := by omega
      subst hd
      have hs : succD ⟨y, 10, 30⟩ = ⟨y, 11, 1⟩ := by simp [succD, daysInMonth]
      rw [hs]
      simp only [daysFromCivil]
      norm_num
      omega
  · -- month 11
    by_cases hlt : d < daysInMonth y 11
    · have hs : succD ⟨y, 11, d⟩ = ⟨y, 11, d + 1⟩ := by simp [succD, hlt]
      rw [hs]
      simp only [daysFromCivil]
      norm_num
      omega
    · have hdk : daysInMonth y 11 = 31 := rfl
      have hd : d = 31 := by omega
      subst hd
      have hs : succD ⟨y, 11, 31⟩ = ⟨y + 1, 0, 1⟩ := by simp [succD, daysInMonth]
      rw [hs]
      simp only [daysFromCivil]
      norm_num
      omega

theorem valid_succ_iter (dt : CalDate) (h : dt.Valid) :
    ∀ n : Nat, (succD^[n] dt).Valid := by
  intro n
  induction n with
  | zero => simpa using h
  | succ k ih =>
    rw [Function.iterate_succ_apply']
    exact valid_succD _ ih

theorem valid_pred_iter (dt : CalDate) (h : dt.Valid) :
    ∀ n : Nat, (predD^[n] dt).Valid := by
  intro n
  induction n with
  | zero => simpa using h
  | succ k ih =>
    rw [Function.iterate_succ_apply']
    exact valid_predD _ ih

theorem predD_succD_iter (dt : CalDate) (h : dt.Valid) :
    ∀ n : Nat, predD^[n] (succD^[n] dt) = dt := by
  intro n
  induction n with
  | zero => simp
  | succ k ih =>
    rw [Function.iterate_succ_apply' (f := succD), Function.iterate_succ_apply (f := predD)]
    rw [predD_succD _ (valid_succ_iter dt h k)]
    exact ih

theorem succD_predD_iter (dt : CalDate) (h : dt.Valid) :
    ∀ n : Nat, succD^[n] (predD^[n] dt) = dt := by
  intro n
  induction n with
  | zero => simp
  | succ k ih =>
    rw [Function.iterate_succ_apply' (f := predD), Function.iterate_succ_apply (f := succD)]
    rw [succD_predD _ (valid_pred_iter dt h k)]
    exact ih

theorem daysFromCivil_succ_iter (dt : CalDate) (h : dt.Valid) :
    ∀ n : Nat, daysFromCivil (succD^[n] dt) = daysFromCivil dt + n := by
  intro n
  induction n with
  | zero => simp
  | succ k ih =>
    rw [Function.iterate_succ_apply']
    rw [daysFromCivil_succD _ (valid_succ_iter dt h k), ih]
    push_cast
    ring

theorem daysFromCivil_predD (dt : CalDate) (h : dt.Valid) :
    daysFromCivil (predD dt) = daysFromCivil dt - 1 := by
  have hv := valid_predD dt h
  have hs := daysFromCivil_succD (predD dt) hv
  rw [succD_predD dt h] at hs
  omega

theorem daysFromCivil_pred_iter (dt : CalDate) (h : dt.Valid) :
    ∀ n : Nat, daysFromCivil (predD^[n] dt) = daysFromCivil dt - n := by
  intro n
  induction n with
  | zero => simp
  | succ k ih =>
    rw [Function.iterate_succ_apply']
    rw [daysFromCivil_predD _ (valid_pred_iter dt h k), ih]
    push_cast
    ring

theorem addDays_natCast (dt : CalDate) (n : Nat) :
    addDays dt (n : Int) = succD^[n] dt := by
  simp [addDays]

theorem addDays_negNatCast (dt : CalDate) (n : Nat) :
    addDays dt (-(n : Int)) = predD^[n] dt := by
  cases n with
  | zero => simp [addDays]
  | succ k =>
    have hneg : ¬(0 ≤ -((k + 1 : Nat) : Int)) := by
      push_cast
      omega
    have ht : (-(-((k + 1 : Nat) : Int))).toNat = k + 1 := by
      push_cast
      omega
    simp only [addDays, hneg, if_false]
    rw [ht]

/-! ## Calendar lemmas: the month grid -/

theorem getMonthGrid_getD (anchor : CalDate) (i : Nat) (h : i < 42) :
    (getMonthGrid anchor).getD i default = succD^[i] (gridStartOf anchor) := by
  unfold getMonthGrid
  have hlen : i < ((List.range 42).map
      fun j : Nat => addDays (gridStartOf anchor) (j : Int)).length := by
    simpa using h
  rw [List.getD_eq_getElem _ _ hlen]
  rw [List.getElem_map]
  rw [List.getElem_range]
  exact addDays_natCast _ _

theorem gridStartOf_eq_pred_iter (anchor : CalDate) :
    gridStartOf anchor =
      predD^[getDay ⟨anchor.year, anchor.month, 1⟩] ⟨anchor.year, anchor.month, 1⟩ := by
  unfold gridStartOf
  exact addDays_negNatCast _ _

/-- C5: for every valid anchor date, the month grid has exactly 42
entries; the entries are consecutive calendar days (each entry is the
calendar successor of the previous one); and the first entry is the
Sunday on or before the first day of the anchor's month: its weekday is
Sunday (`getDay = 0`), it does not lie after the first of the month, and
it lies less than 7 days before it. -/
theorem month_grid_shape (anchor : CalDate) (h : anchor.Valid) :
    (getMonthGrid anchor).length = 42 ∧
    (∀ i, i + 1 < 42 →
      (getMonthGrid anchor).getD (i + 1) default =
        succD ((getMonthGrid anchor).getD i default)) ∧
    getDay ((getMonthGrid anchor).getD 0 default) = 0 ∧
    daysFromCivil ((getMonthGrid anchor).getD 0 default) ≤
      daysFromCivil ⟨anchor.year, anchor.month, 1⟩ ∧
    daysFromCivil ⟨anchor.year, anchor.month, 1⟩ -
      daysFromCivil ((getMonthGrid anchor).getD 0 default) < 7 := by
  have hfv : (CalDate.mk anchor.year anchor.month 1).Valid := by
    rw [valid_mk]
    exact ⟨h.1, le_refl 1, daysInMonth_pos _ _⟩
  have hgrid0 : (getMonthGrid anchor).getD 0 default = gridStartOf anchor := by
    simpa using getMonthGrid_getD anchor 0 (by omega)
  have hdfc : daysFromCivil (gridStartOf anchor) =
      daysFromCivil ⟨anchor.year, anchor.month, 1⟩ -
        getDay ⟨anchor.year, anchor.month, 1⟩ := by
    rw [gridStartOf_eq_pred_iter]
    exact daysFromCivil_pred_iter _ hfv _
  have hwday : getDay ⟨anchor.year, anchor.month, 1⟩ =
      ((daysFromCivil ⟨anchor.year, anchor.month, 1⟩ + 4) % 7).toNat := rfl
  refine ⟨by simp [getMonthGrid], ?_, ?_, ?_, ?_⟩
  · intro i hi
    rw [getMonthGrid_getD anchor (i + 1) hi, getMonthGrid_getD anchor i (by omega)]
    rw [Function.iterate_succ_apply']
  · rw [hgrid0]
    show ((daysFromCivil (gridStartOf anchor) + 4) % 7).toNat = 0
    rw [hdfc, hwday]
    omega
  · rw [hgrid0, hdfc]
    omega
  · rw [hgrid0, hdfc, hwday]
    omega

/-- C5 witness: the grid of October 2025 (anchor 2025-10-11): 42
entries, and its first cell (Sunday 2025-09-28) has weekday 0. -/
theorem month_grid_shape_witness :
    (getMonthGrid ⟨2025, 9, 11⟩).length = 42 ∧
    getDay ((getMonthGrid ⟨2025, 9, 11⟩).getD 0 default) = 0 := by
  have h := month_grid_shape ⟨2025, 9, 11⟩ (by decide)
  exact ⟨h.1, h.2.2.1⟩

/-! ## Calendar lemmas: month stepping and navigation -/

theorem goNext_view (s : CalendarState) : (goNext s).view = s.view := rfl

theorem goNext_current (s : CalendarState) :
    (goNext s).current =
      if s.view == "month" then addMonths s.current 1
      else if s.view == "week" then addDays s.current 7
      else addDays s.current 1 := by
  unfold goNext startOfDay addWeeks
  norm_num

theorem goPrev_current (s : CalendarState) :
    (goPrev s).current =
      if s.view == "month" then addMonths s.current (-1)
      else if s.view == "week" then addDays s.current (-7)
      else addDays s.current (-1) := by
  unfold goPrev startOfDay addWeeks
  norm_num

theorem addMonths_mk (y : Int) (m d : Nat) (n : Int) :
    addMonths ⟨y, m, d⟩ n =
      if d ≤ daysInMonth (y + ((m : Int) + n) / 12) (((m : Int) + n) % 12).toNat
      then ⟨y + ((m : Int) + n) / 12, (((m : Int) + n) % 12).toNat, d⟩
      else if (((m : Int) + n) % 12).toNat < 11
      then ⟨y + ((m : Int) + n) / 12, (((m : Int) + n) % 12).toNat + 1,
            d - daysInMonth (y + ((m : Int) + n) / 12) (((m : Int) + n) % 12).toNat⟩
      else ⟨y + ((m : Int) + n) / 12 + 1, 0,
            d - daysInMonth (y + ((m : Int) + n) / 12) (((m : Int) + n) % 12).toNat⟩ := rfl

theorem addMonths_one (y : Int) (m d : Nat) (hm : m < 12)
    (hd : d ≤ daysInMonth (if m = 11 then y + 1 else y) (if m = 11 then 0 else m + 1)) :
    addMonths ⟨y, m, d⟩ 1 =
      ⟨if m = 11 then y + 1 else y, if m = 11 then 0 else m + 1, d⟩ := by
  rw [addMonths_mk]
  by_cases hm11 : m = 11
  · subst hm11
    norm_num at hd ⊢
    exact hd
  · have h1 : ((m : Int) + 1) / 12 = 0 := by omega
    have h2 : (((m : Int) + 1) % 12).toNat = m + 1 := by omega
    rw [h1, h2]
    simp only [add_zero]
    simp only [hm11, if_false] at hd ⊢
    rw [if_pos hd]

theorem addMonths_back (y : Int) (m d : Nat) (hm : m < 12)
    (hd2 : d ≤ daysInMonth y m) :
    addMonths ⟨if m = 11 then y + 1 else y, if m = 11 then 0 else m + 1, d⟩ (-1) =
      ⟨y, m, d⟩ := by
  by_cases hm11 : m = 11
  · subst hm11
    norm_num
    rw [addMonths_mk]
    have h1 : (((0 : Nat) : Int) + (-1)) / 12 = -1 := by decide
    have h2 : ((((0 : Nat) : Int) + (-1)) % 12).toNat = 11 := by decide
    rw [h1, h2]
    have h31 : daysInMonth (y + 1 + -1) 11 = 31 := rfl
    have h31' : daysInMonth y 11 = 31 := rfl
    have hd' : d ≤ daysInMonth (y + 1 + -1) 11 := by omega
    rw [if_pos hd']
    have hy : y + 1 + -1 = y := by ring
    rw [hy]
  · simp only [hm11, if_false]
    rw [addMonths_mk]
    have h1 : (((m + 1 : Nat) : Int) + (-1)) / 12 = 0 := by
      push_cast
      omega
    have h2 : ((((m + 1 : Nat) : Int) + (-1)) % 12).toNat = m := by
      push_cast
      omega
    rw [h1, h2]
    simp only [add_zero]
    rw [if_pos hd2]

theorem addMonths_round_trip (dt : CalDate) (hv : dt.Valid)
    (hd : dt.day ≤ daysInMonth (nextMonthOf dt).1 (nextMonthOf dt).2) :
    addMonths (addMonths dt 1) (-1) = dt := by
  obtain ⟨y, m, d⟩ := dt
  rw [valid_mk] at hv
  obtain ⟨hm, hd1, hd2⟩ := hv
  have hnext : nextMonthOf ⟨y, m, d⟩ =
      (if m = 11 then y + 1 else y, if m = 11 then 0 else m + 1) := by
    by_cases hm11 : m = 11 <;> simp [nextMonthOf, hm11]
  rw [hnext] at hd
  simp only at hd
  rw [addMonths_one y m d hm hd]
  exact addMonths_back y m d hm hd2

/-- C6: `goNext()` then `goPrev()` in the same view returns `current` to
its original value: unconditionally in week view and in day view (the
component's fallback branch), and in month view whenever the anchor's
day-of-month also exists in the adjacent (following) month.  The
excluded month-view edge case is real: from Jan 31 2025, `goNext` lands
on Mar 3 and `goPrev` then yields Feb 3, not Jan 31. -/
theorem nav_round_trip :
    (∀ s : CalendarState, s.current.Valid → s.view = "week" →
      (goPrev (goNext s)).current = s.current) ∧
    (∀ s : CalendarState, s.current.Valid → s.view ≠ "month" → s.view ≠ "week" →
      (goPrev (goNext s)).current = s.current) ∧
    (∀ s : CalendarState, s.current.Valid → s.view = "month" →
      s.current.day ≤ daysInMonth (nextMonthOf s.current).1 (nextMonthOf s.current).2 →
      (goPrev (goNext s)).current = s.current) ∧
    ((goPrev (goNext ⟨"month", ⟨2025, 0, 31⟩, none⟩)).current = ⟨2025, 1, 3⟩ ∧
      (⟨2025, 1, 3⟩ : CalDate) ≠ ⟨2025, 0, 31⟩) := by
  refine ⟨?_, ?_, ?_, by decide, by decide⟩
  · intro s hv hw
    have h1 : (goPrev (goNext s)).current = addDays (addDays s.current 7) (-7) := by
      simp [goPrev_current, goNext_current, goNext_view, hw]
    rw [h1]
    rw [show (7 : Int) = ((7 : Nat) : Int) from rfl]
    rw [addDays_natCast, addDays_negNatCast]
    exact predD_succD_iter _ hv 7
  · intro s hv hm hw
    have h1 : (goPrev (goNext s)).current = addDays (addDays s.current 1) (-1) := by
      simp [goPrev_current, goNext_current, goNext_view, hm, hw]
    rw [h1]
    rw [show (1 : Int) = ((1 : Nat) : Int) from rfl]
    rw [addDays_natCast, addDays_negNatCast]
    exact predD_succD_iter _ hv 1
  · intro s hv hm hd
    have h1 : (goPrev (goNext s)).current = addMonths (addMonths s.current 1) (-1) := by
      simp [goPrev_current, goNext_current, goNext_view, hm]
    rw [h1]
    exact addMonths_round_trip s.current hv hd

/-- C6 witness: round trips at concrete states — week view from
2025-10-11, day view from the leap day 2024-02-29, and month view from
2025-04-30 (April 30 exists in May). -/
theorem nav_round_trip_witness :
    (goPrev (goNext ⟨"week", ⟨2025, 9, 11⟩, none⟩)).current = ⟨2025, 9, 11⟩ ∧
    (goPrev (goNext ⟨"day", ⟨2024, 1, 29⟩, none⟩)).current = ⟨2024, 1, 29⟩ ∧
    (goPrev (goNext ⟨"month", ⟨2025, 3, 30⟩, none⟩)).current = ⟨2025, 3, 30⟩ := by
  refine ⟨nav_round_trip.1 ⟨"week", ⟨2025, 9, 11⟩, none⟩ (by decide) rfl,
    nav_round_trip.2.1 ⟨"day", ⟨2024, 1, 29⟩, none⟩ (by decide) (by decide) (by decide),
    nav_round_trip.2.2.1 ⟨"month", ⟨2025, 3, 30⟩, none⟩ (by decide) rfl (by decide)⟩
